import Mathlib

/-!
Verification development for the Power_management smart-grid forecasting
service (`ml/train_forecast_model.py` and `ml/serve_model.py`).

The Python pipeline is shallowly embedded in Lean:
* pandas/numpy float columns become `ℚ` (model predictions and sensor
  readings are finite floats; where NaN matters it is made explicit with
  `Option` or with the `PyFloat` type below),
* dataframe rows become structures, dataframe operations become list
  operations (`filter`, `map`, `take`, `drop`, sorting),
* Python `int(x)` on a nonnegative float becomes `Int.floor` + `Int.toNat`,
* Python `round(x, 4)` (round-half-to-even at 4 decimal places) becomes
  `round4` below.
-/

/-- Round-half-to-even of a rational to an integer (the tie-breaking rule of
Python's builtin `round`). -/
def roundHalfEven (x : ℚ) : ℤ :=
  let f := ⌊x⌋
  let r := x - f
  if r < 1/2 then f
  else if 1/2 < r then f + 1
  else if f % 2 = 0 then f else f + 1

/-- Python `round(x, 4)`: round to 4 decimal places, half to even. -/
def round4 (q : ℚ) : ℚ := (roundHalfEven (q * 10000) : ℚ) / 10000

/-- A Python float as seen by `serve_model.py`: a finite value, NaN, or a
signed infinity. -/
inductive PyFloat where
  | finite : ℚ → PyFloat
  | nan : PyFloat
  | posInf : PyFloat
  | negInf : PyFloat
deriving DecidableEq, Repr

/-- `math.isnan`. -/
def PyFloat.isnan : PyFloat → Bool
  | .nan => true
  | _ => false

/-- Python `round(v, 4)` on a float: finite values are rounded; `round` maps
NaN to NaN and the infinities to themselves. -/
def PyFloat.round4F : PyFloat → PyFloat
  | .finite q => .finite (round4 q)
  | v => v

/-- `serve_model.py::safe_float` (lines 103-107):
`None` or NaN become `None`; everything else is returned as
`round(float(val), 4)`.  `Option.none` models Python `None`. -/
def safe_float (val : Option PyFloat) : Option PyFloat :=
  match val with
  | none => none
  | some v => if v.isnan then none else some v.round4F

/-- `serve_model.py` line 72: `split_idx = int(len(df_raw) * 0.8)`.
`0.8` is the rational 8/10 (float subtleties are modelled exactly). -/
def split_idx (n : ℕ) : ℕ := (⌊(n : ℚ) * (8/10)⌋).toNat

/-- `serve_model.py` lines 73-74: `df_train = df_raw.iloc[:split_idx]`,
`df_test = df_raw.iloc[split_idx:]`. -/
def servingSplit {α : Type} (l : List α) : List α × List α :=
  (l.take (split_idx l.length), l.drop (split_idx l.length))

/-- `train_forecast_model.py` lines 92-94:
`train_test_split(X, y, test_size=0.2, shuffle=False)`.  sklearn's documented
behaviour with `shuffle=False` and a float `test_size` is
`n_test = ceil(0.2 * n)`, `n_train = n - n_test`, train = first `n_train`
rows, test = the remaining rows, order preserved. -/
def train_test_split_cut (n : ℕ) : ℕ := n - (⌈(n : ℚ) * (2/10)⌉).toNat

/-- The train/test partition produced by the training script. -/
def trainingSplit {α : Type} (l : List α) : List α × List α :=
  (l.take (train_test_split_cut l.length), l.drop (train_test_split_cut l.length))

/-! ### Feature engineering (`serve_model.py` lines 55-61,
`train_forecast_model.py` lines 53-63)

The raw dataframe is modelled by its `Power Consumption (kW)` column, a
`List ℚ` ordered by timestamp.  The claims assume no missing values in the
raw columns, so the only NaN entries come from `shift` and `rolling`;
time-derived columns (`hour`, `dayofweek`, `month`, `is_weekend`) are total
and never NaN, so they are irrelevant to `dropna` and omitted here. -/

/-- `series.shift(k)` evaluated at row `i`: the value `k` rows earlier,
NaN (`none`) for the first `k` rows. -/
def lagAt (raw : List ℚ) (k i : ℕ) : Option ℚ :=
  if i < k then none else raw[i - k]?

/-- The trailing window of width 4 ending at row `i` (inclusive), used by
`rolling(4)`; empty for the first 3 rows. -/
def windowAt (raw : List ℚ) (i : ℕ) : List ℚ :=
  if i < 3 then [] else (raw.drop (i - 3)).take 4

/-- `rolling(4).mean()` at row `i`. -/
def rollMeanAt (raw : List ℚ) (i : ℕ) : Option ℚ :=
  if i < 3 then none else some ((windowAt raw i).sum / 4)

/-- The square of `rolling(4).std()` at row `i`, i.e. the sample variance
(ddof = 1) of the window.  `ℚ` has no square root; since the real square
root of a nonnegative rational is defined (non-NaN) exactly when its
argument is, tracking the variance preserves the NaN pattern exactly, and
no claim reads the std column's value. -/
def rollStdSqAt (raw : List ℚ) (i : ℕ) : Option ℚ :=
  if i < 3 then none
  else
    let w := windowAt raw i
    let m := w.sum / 4
    some ((w.map (fun x => (x - m)^2)).sum / 3)

/-- Maximum of a list of rationals, `none` on the empty list. -/
def listMax : List ℚ → Option ℚ
  | [] => none
  | x :: xs => some (xs.foldl max x)

/-- `rolling(4).max()` at row `i`. -/
def rollMaxAt (raw : List ℚ) (i : ℕ) : Option ℚ :=
  if i < 3 then none else listMax (windowAt raw i)

/-- One engineered row: the original row position plus the shift/rolling
columns (`none` models NaN). -/
structure FeatRow where
  idx : ℕ
  power_lag_1 : Option ℚ
  power_lag_2 : Option ℚ
  power_lag_4 : Option ℚ
  power_roll_mean_1h : Option ℚ
  power_roll_std_sq_1h : Option ℚ
  power_roll_max_1h : Option ℚ
deriving DecidableEq, Repr

/-- The engineered columns at row `i`. -/
def featRowAt (raw : List ℚ) (i : ℕ) : FeatRow :=
  { idx := i
    power_lag_1 := lagAt raw 1 i
    power_lag_2 := lagAt raw 2 i
    power_lag_4 := lagAt raw 4 i
    power_roll_mean_1h := rollMeanAt raw i
    power_roll_std_sq_1h := rollStdSqAt raw i
    power_roll_max_1h := rollMaxAt raw i }

/-- `df.dropna()` keeps a row iff none of its entries is NaN. -/
def dropnaKeep (r : FeatRow) : Bool :=
  r.power_lag_1.isSome && r.power_lag_2.isSome && r.power_lag_4.isSome &&
  r.power_roll_mean_1h.isSome && r.power_roll_std_sq_1h.isSome &&
  r.power_roll_max_1h.isSome

/-- The feature-engineering pipeline: build every engineered row in input
order, then drop the NaN rows (`df.dropna(inplace=True)`). -/
def engineer (raw : List ℚ) : List FeatRow :=
  ((List.range raw.length).map (featRowAt raw)).filter dropnaKeep

/-! ### The cached prediction table and the `/forecast` aggregation
(`serve_model.py` lines 149-171) -/

/-- One row of the cached test table `df_test`, restricted to the columns
the aggregation claims read. -/
structure SRow where
  hour : ℕ
  dayofweek : ℕ
  predicted : ℚ
deriving DecidableEq, Repr

/-- pandas `Series.median`: sort the values ascending; take the middle value
for odd length, the mean of the two middle values for even length
(0 on an empty series, a case the callers guard). -/
def medianQ (l : List ℚ) : ℚ :=
  let s := List.insertionSort (· ≤ ·) l
  if s.length % 2 = 1 then s.getD (s.length / 2) 0
  else (s.getD (s.length / 2 - 1) 0 + s.getD (s.length / 2) 0) / 2

/-- `groupby("hour").agg(predicted=("predicted_kw", "median")).reindex(range(24))`
read at hour `h`: NaN (`none`) when no selected row has that hour. -/
def hourMedian (sel : List SRow) (h : ℕ) : Option ℚ :=
  let vals := (sel.filter (fun r => r.hour == h)).map SRow.predicted
  if vals.isEmpty then none else some (medianQ vals)

/-- One entry of the `forecastTomorrow` payload. -/
structure TEntry where
  hour : ℕ
  predicted : ℚ
  confidence : ℕ
deriving DecidableEq, Repr

/-- `serve_model.py` line 152: `dow_rows = df_test[df_test["dayofweek"] == tomorrow_dow]`. -/
def dowRows (rs : List SRow) (tomorrow_dow : ℕ) : List SRow :=
  rs.filter (fun r => r.dayofweek == tomorrow_dow)

/-- `serve_model.py` lines 153-154: `if dow_rows.empty: dow_rows = df_test`. -/
def selRows (rs : List SRow) (tomorrow_dow : ℕ) : List SRow :=
  if (dowRows rs tomorrow_dow).isEmpty then rs else dowRows rs tomorrow_dow

/-- `serve_model.py` lines 149-171: the tomorrow profile.  Select the test
rows whose `dayofweek` equals tomorrow's; fall back to the whole table when
none match; per hour 0..23 report `safe_float` of the median predicted
value, with NaN (missing hour) coerced to `0`; attach
`confidence = CONFIDENCE_BASE + (h % 4)` with `CONFIDENCE_BASE = 88`. -/
def forecastTomorrow (rs : List SRow) (tomorrow_dow : ℕ) : List TEntry :=
  (List.range 24).map (fun h =>
    { hour := h
      predicted :=
        match hourMedian (selRows rs tomorrow_dow) h with
        | none => 0
        | some m => round4 m
      confidence := 88 + h % 4 })

/-! ### The `/peak` histogram (`serve_model.py` lines 274-282) -/

/-- `pd.cut(x, bins=[0,2,4,6,8,10,12,inf], labels=...)` with the default
`right=True`: the bins are the right-closed intervals
`(0,2], (2,4], (4,6], (6,8], (8,10], (10,12], (12,inf]`; a value outside
every bin (in particular any value `≤ 0`) gets NaN, i.e. `none`. -/
def bucketOf (v : ℚ) : Option ℕ :=
  if 0 < v ∧ v ≤ 2 then some 0
  else if 2 < v ∧ v ≤ 4 then some 1
  else if 4 < v ∧ v ≤ 6 then some 2
  else if 6 < v ∧ v ≤ 8 then some 3
  else if 8 < v ∧ v ≤ 10 then some 4
  else if 10 < v ∧ v ≤ 12 then some 5
  else if 12 < v then some 6
  else none

/-- The fixed bucket labels of the `/peak` histogram. -/
def LABELS : List String :=
  ["0-2 kW", "2-4 kW", "4-6 kW", "6-8 kW", "8-10 kW", "10-12 kW", "12+ kW"]

/-- `value_counts().reindex(labels, fill_value=0)` read at bucket `k`. -/
def histCount (rs : List SRow) (k : ℕ) : ℕ :=
  (rs.filter (fun r => bucketOf r.predicted == some k)).length

/-- The `/peak` histogram payload: all seven `(label, count)` pairs in the
fixed label order. -/
def histogram (rs : List SRow) : List (String × ℕ) :=
  (List.range 7).map (fun k => (LABELS.getD k "", histCount rs k))

/-! ### Startup metrics (`serve_model.py` lines 84-86) -/

/-- Mean of a list of rationals (0 on the empty list). -/
def meanQ (l : List ℚ) : ℚ := l.sum / l.length

/-- Residual sum of squares of paired actual/predicted values. -/
def ssRes (a p : List ℚ) : ℚ := ((a.zip p).map (fun x => (x.1 - x.2)^2)).sum

/-- Total sum of squares of the actual values around their mean. -/
def ssTot (a : List ℚ) : ℚ := (a.map (fun x => (x - meanQ a)^2)).sum

/-- `sklearn.metrics.r2_score`: `1 - SS_res/SS_tot`, with sklearn's
documented degenerate-denominator handling (`SS_tot = 0` yields `1.0` when
`SS_res = 0` and `0.0` otherwise). -/
def r2_score (a p : List ℚ) : ℚ :=
  if ssTot a = 0 then (if ssRes a p = 0 then 1 else 0)
  else 1 - ssRes a p / ssTot a

/-- `serve_model.py` line 86: `R2_VAL = float(max(0.0, r2_score(...)))`. -/
def R2_VAL (a p : List ℚ) : ℚ := max 0 (r2_score a p)

/-! ### The `/peak` top-10 (`serve_model.py` lines 284-298)

`df_work.nlargest(10, "predicted_kw")` with the default `keep="first"`:
pandas takes the rows whose column value is among the 10 largest, ordered by
a stable (mergesort) argsort of the negated column — i.e. the first 10
entries of the stable descending sort of the enumerated rows.  numpy's
stable argsort emits, among equal keys, the indices in increasing order, so
sorting the `(position, row)` pairs by "predicted descending, then position
ascending" computes exactly that argsort. -/

/-- The comparator realised by numpy's stable argsort over the negated
`predicted_kw` column: predicted descending, original position ascending on
ties. -/
def nlargestLE (a b : ℕ × SRow) : Bool :=
  decide (b.2.predicted < a.2.predicted ∨
    (a.2.predicted = b.2.predicted ∧ a.1 ≤ b.1))

/-- The enumerated test table sorted the way `nlargest` sorts it. -/
def sortedEnum (rs : List SRow) : List (ℕ × SRow) :=
  (rs.enum).mergeSort nlargestLE

/-- `df_work.nlargest(10, "predicted_kw")`: first 10 rows of the stable
descending sort, with their original positions. -/
def top10 (rs : List SRow) : List (ℕ × SRow) :=
  (sortedEnum rs).take 10

/-! ## Helper lemmas -/

theorem split_idx_eq (n : ℕ) : split_idx n = 4 * n / 5 := by
  unfold split_idx
  rw [show (n : ℚ) * (8/10) = ((4 * n : ℕ) : ℚ) / ((5 : ℕ) : ℚ) by push_cast; ring]
  rw [Int.floor_toNat, Nat.floor_div_nat, Nat.floor_natCast]

theorem ceil_fifth (n : ℕ) : (⌈(n : ℚ) * (2/10)⌉).toNat = (n + 4) / 5 := by
  have h1 : n ≤ 5 * ((n + 4) / 5) := by omega
  have h2 : 5 * ((n + 4) / 5) < n + 5 := by omega
  have hf : ⌈(n : ℚ) * (2/10)⌉ = (((n + 4) / 5 : ℕ) : ℤ) := by
    rw [Int.ceil_eq_iff]
    have he : (n : ℚ) * (2/10) = (n : ℚ) / 5 := by ring
    constructor
    · rw [he, Int.cast_natCast]
      have h2' : 5 * (((n + 4) / 5 : ℕ) : ℚ) < (n : ℚ) + 5 := by exact_mod_cast h2
      linarith
    · rw [he, Int.cast_natCast]
      have h1' : (n : ℚ) ≤ 5 * (((n + 4) / 5 : ℕ) : ℚ) := by exact_mod_cast h1
      linarith
  rw [hf]
  exact Int.toNat_natCast _

theorem train_test_split_cut_eq (n : ℕ) : train_test_split_cut n = 4 * n / 5 := by
  unfold train_test_split_cut
  rw [ceil_fifth]
  omega

/-! ## Claim theorems -/

/-- C2: For every input sequence, the train/test cut index and row ordering
produced by the training procedure (`train_test_split` with `test_size=0.2`,
`shuffle=False`) are identical to those produced by the serving procedure
(slicing at `int(len*0.8)`): same cut, same train/test lengths, and the very
same prefix/suffix partition of the rows. -/
theorem trainingSplit_eq_servingSplit :
    ∀ (α : Type) (l : List α),
      train_test_split_cut l.length = split_idx l.length ∧
      trainingSplit l = servingSplit l ∧
      (trainingSplit l).1.length = (servingSplit l).1.length ∧
      (trainingSplit l).2.length = (servingSplit l).2.length := by
  intro α l
  have hcut : train_test_split_cut l.length = split_idx l.length := by
    rw [train_test_split_cut_eq, split_idx_eq]
  have hsplit : trainingSplit l = servingSplit l := by
    unfold trainingSplit servingSplit
    rw [hcut]
  exact ⟨hcut, hsplit, by rw [hsplit], by rw [hsplit]⟩

/-- C4 counterexample: a 5-row feature sequence is below the claimed minimum
viable size, yet the serving split does not reject it — it happily returns
the 4/1 partition. -/
theorem servingSplit_no_reject_cex :
    servingSplit ([1, 2, 3, 4, 5] : List ℚ) = ([1, 2, 3, 4], [5]) := by
  have h : split_idx ([1, 2, 3, 4, 5] : List ℚ).length = 4 := by
    rw [split_idx_eq]
    decide
  unfold servingSplit
  rw [h]
  rfl

/-- C4 amended: the serving split performs no validation at all — the train
fraction is hard-coded to 0.8 and there is no length check; every input
sequence, in particular any of length below 10, is split at
`floor(0.8 * len)` with no error raised before downstream computation. -/
theorem servingSplit_no_validation (l : List ℚ) (h : l.length < 10) :
    (servingSplit l).1 ++ (servingSplit l).2 = l ∧
    (servingSplit l).1.length = 4 * l.length / 5 ∧
    (servingSplit l).2.length = l.length - 4 * l.length / 5 := by
  have hc : split_idx l.length = 4 * l.length / 5 := split_idx_eq l.length
  unfold servingSplit
  refine ⟨List.take_append_drop _ _, ?_, ?_⟩
  · rw [hc, List.length_take]
    omega
  · rw [hc, List.length_drop]

/-- C4 witness for the amended theorem: the 5-row sequence again. -/
theorem servingSplit_no_validation_witness :
    ([1, 2, 3, 4, 5] : List ℚ).length < 10 ∧
    (servingSplit ([1, 2, 3, 4, 5] : List ℚ)).1.length = 4 := by
  refine ⟨by decide, ?_⟩
  have h := servingSplit_no_validation ([1, 2, 3, 4, 5] : List ℚ) (by decide)
  have h2 := h.2.1
  simpa using h2

/-- C6: for a feature sequence of length ≥ 10 and fraction 0.8, the cut
index is `floor(0.8 * len) = 4*len/5`, train is exactly the prefix up to the
cut, test exactly the suffix, their lengths sum to the input length, and the
train length equals `floor(0.8 * len)`. -/
theorem servingSplit_spec (l : List ℚ) (h : 10 ≤ l.length) :
    split_idx l.length = 4 * l.length / 5 ∧
    (servingSplit l).1 = l.take (4 * l.length / 5) ∧
    (servingSplit l).2 = l.drop (4 * l.length / 5) ∧
    (servingSplit l).1.length + (servingSplit l).2.length = l.length ∧
    (servingSplit l).1.length = 4 * l.length / 5 := by
  have hc : split_idx l.length = 4 * l.length / 5 := split_idx_eq l.length
  unfold servingSplit
  rw [hc]
  refine ⟨rfl, rfl, rfl, ?_, ?_⟩
  · rw [List.length_take, List.length_drop]
    omega
  · rw [List.length_take]
    omega

/-- C6 witness: a concrete 10-element sequence, cut at 8. -/
theorem servingSplit_spec_witness :
    10 ≤ ([0, 1, 2, 3, 4, 5, 6, 7, 8, 9] : List ℚ).length ∧
    split_idx ([0, 1, 2, 3, 4, 5, 6, 7, 8, 9] : List ℚ).length = 8 ∧
    (servingSplit ([0, 1, 2, 3, 4, 5, 6, 7, 8, 9] : List ℚ)).1.length = 8 := by
  have h := servingSplit_spec ([0, 1, 2, 3, 4, 5, 6, 7, 8, 9] : List ℚ) (by decide)
  refine ⟨by decide, ?_, ?_⟩
  · have h1 := h.1
    simpa using h1
  · have h5 := h.2.2.2.2
    simpa using h5

theorem forecastTomorrow_getD (rs : List SRow) (tdow h : ℕ) (hh : h < 24) (d : TEntry) :
    (forecastTomorrow rs tdow).getD h d =
      { hour := h
        predicted :=
          match hourMedian (selRows rs tdow) h with
          | none => 0
          | some m => round4 m
        confidence := 88 + h % 4 } := by
  unfold forecastTomorrow
  rw [List.getD_eq_getElem?_getD, List.getElem?_map, List.getElem?_range hh]
  rfl

/-- C3 (code bug): `safe_float` maps `None` and NaN to `None` and rounds
finite values to 4 decimal places, but an infinite value is passed through
`round()` unchanged instead of becoming `None` — contradicting both the spec
and the function's own "JSON-serialisable" docstring. -/
theorem safe_float_nonfinite :
    safe_float (some PyFloat.nan) = none ∧
    safe_float none = none ∧
    (∀ q : ℚ, safe_float (some (PyFloat.finite q)) = some (PyFloat.finite (round4 q))) ∧
    safe_float (some PyFloat.posInf) = some PyFloat.posInf ∧
    safe_float (some PyFloat.negInf) = some PyFloat.negInf ∧
    safe_float (some PyFloat.posInf) ≠ none := by
  refine ⟨rfl, rfl, fun q => rfl, rfl, rfl, by decide⟩

/-- C3 witness: `safe_float` on a concrete finite value. -/
theorem safe_float_nonfinite_witness :
    safe_float (some (PyFloat.finite 0)) = some (PyFloat.finite (round4 0)) :=
  safe_float_nonfinite.2.2.1 0

/-- C8: the reported r2 is `max(0, r2_score)`: whenever the mathematical
`1 - SS_res/SS_tot` is negative the service reports 0; on the spec's
constant-actual example `actual=[1,1,1,1]`, `predicted=[5,5,5,5]` the
reported value is 0; and the reported value is never negative. -/
theorem R2_VAL_floor :
    (∀ a p : List ℚ, ssTot a ≠ 0 → 1 - ssRes a p / ssTot a < 0 → R2_VAL a p = 0) ∧
    R2_VAL [1, 1, 1, 1] [5, 5, 5, 5] = 0 ∧
    (∀ a p : List ℚ, 0 ≤ R2_VAL a p) := by
  refine ⟨?_, ?_, fun a p => le_max_left 0 _⟩
  · intro a p hne hneg
    unfold R2_VAL r2_score
    rw [if_neg hne]
    exact max_eq_left (le_of_lt hneg)
  · have h1 : ssTot ([1, 1, 1, 1] : List ℚ) = 0 := by
      norm_num [ssTot, meanQ]
    have h2 : ssRes ([1, 1, 1, 1] : List ℚ) ([5, 5, 5, 5] : List ℚ) ≠ 0 := by
      norm_num [ssRes, List.zip]
    unfold R2_VAL r2_score
    rw [if_pos h1, if_neg h2]
    norm_num

/-- C8 witness: a test set with genuinely negative mathematical r2. -/
theorem R2_VAL_floor_witness :
    ssTot [0, 2] ≠ 0 ∧
    1 - ssRes [0, 2] [10, 10] / ssTot [0, 2] < 0 ∧
    R2_VAL [0, 2] [10, 10] = 0 := by
  have hne : ssTot ([0, 2] : List ℚ) ≠ 0 := by
    norm_num [ssTot, meanQ]
  have hlt : 1 - ssRes ([0, 2] : List ℚ) ([10, 10] : List ℚ) / ssTot ([0, 2] : List ℚ) < 0 := by
    norm_num [ssRes, ssTot, meanQ, List.zip]
  exact ⟨hne, hlt, R2_VAL_floor.1 [0, 2] [10, 10] hne hlt⟩

/-- C10: the confidence field of the next-day profile at hour `h` is exactly
`88 + (h % 4)`, hence always in `[88, 91]`, and is independent of the cached
table and of the predicted values. -/
theorem confidence_heuristic :
    ∀ (rs rs' : List SRow) (tdow tdow' h : ℕ), h < 24 →
      ((forecastTomorrow rs tdow).getD h ⟨0, 0, 0⟩).confidence = 88 + h % 4 ∧
      88 ≤ ((forecastTomorrow rs tdow).getD h ⟨0, 0, 0⟩).confidence ∧
      ((forecastTomorrow rs tdow).getD h ⟨0, 0, 0⟩).confidence ≤ 91 ∧
      ((forecastTomorrow rs tdow).getD h ⟨0, 0, 0⟩).confidence =
        ((forecastTomorrow rs' tdow').getD h ⟨0, 0, 0⟩).confidence := by
  intro rs rs' tdow tdow' h hh
  have e1 : ((forecastTomorrow rs tdow).getD h ⟨0, 0, 0⟩).confidence = 88 + h % 4 := by
    rw [forecastTomorrow_getD rs tdow h hh]
  have e2 : ((forecastTomorrow rs' tdow').getD h ⟨0, 0, 0⟩).confidence = 88 + h % 4 := by
    rw [forecastTomorrow_getD rs' tdow' h hh]
  refine ⟨e1, ?_, ?_, by rw [e1, e2]⟩
  · rw [e1]; omega
  · rw [e1]; omega

/-- C10 witness: hour 5 of an empty table has confidence 89. -/
theorem confidence_heuristic_witness :
    ((forecastTomorrow [] 0).getD 5 ⟨0, 0, 0⟩).confidence = 89 := by
  have h := (confidence_heuristic [] [] 0 0 5 (by decide)).1
  rw [h]

theorem listMax_isSome (l : List ℚ) (h : l ≠ []) : (listMax l).isSome := by
  cases l with
  | nil => exact absurd rfl h
  | cons x xs => rfl

theorem dropnaKeep_featRowAt (raw : List ℚ) (i : ℕ) (hi : i < raw.length) :
    dropnaKeep (featRowAt raw i) = decide (4 ≤ i) := by
  by_cases h4 : 4 ≤ i
  · have h1 : ¬ i < 1 := by omega
    have h2 : ¬ i < 2 := by omega
    have h4' : ¬ i < 4 := by omega
    have h3 : ¬ i < 3 := by omega
    have e1 : i - 1 < raw.length := by omega
    have e2 : i - 2 < raw.length := by omega
    have e4 : i - 4 < raw.length := by omega
    have hw : windowAt raw i ≠ [] := by
      unfold windowAt
      rw [if_neg h3]
      have hlen : ((raw.drop (i - 3)).take 4).length ≠ 0 := by
        rw [List.length_take, List.length_drop]
        omega
      intro hnil
      rw [hnil] at hlen
      exact hlen rfl
    simp only [dropnaKeep, featRowAt, lagAt, rollMeanAt, rollStdSqAt, rollMaxAt,
      if_neg h1, if_neg h2, if_neg h4', if_neg h3]
    simp [List.getElem?_eq_getElem e1, List.getElem?_eq_getElem e2,
      List.getElem?_eq_getElem e4, listMax_isSome _ hw, h4]
  · have hlt : i < 4 := by omega
    simp only [dropnaKeep, featRowAt, lagAt, if_pos hlt]
    simp [h4]

theorem range_filter_ge (n : ℕ) (h : 4 ≤ n) :
    (List.range n).filter (fun i => decide (4 ≤ i)) = List.range' 4 (n - 4) := by
  obtain ⟨m, rfl⟩ : ∃ m, n = 4 + m := ⟨n - 4, by omega⟩
  rw [List.range_add, List.filter_append]
  have h1 : (List.range 4).filter (fun i => decide (4 ≤ i)) = [] := by decide
  have h2 : (List.map (fun x => 4 + x) (List.range m)).filter (fun i => decide (4 ≤ i))
      = List.map (fun x => 4 + x) (List.range m) :=
    List.filter_eq_self.mpr (by
      intro a ha
      simp only [List.mem_map] at ha
      obtain ⟨x, _, rfl⟩ := ha
      simp)
  rw [h1, h2, List.nil_append, ← List.range'_eq_map_range]
  have hm : 4 + m - 4 = m := by omega
  rw [hm]

/-- C7: for any raw power series of length ≥ 5 (no missing raw values), the
feature-engineering pipeline keeps exactly `len(raw) - 4` rows: precisely the
first 4 rows (incomplete lag-4 / 4-interval rolling windows) are dropped, and
the surviving rows keep the input order (their original indices are exactly
`4, 5, ..., len(raw)-1` in increasing order). -/
theorem engineer_drops_first_four (raw : List ℚ) (h : 5 ≤ raw.length) :
    (engineer raw).length = raw.length - 4 ∧
    (engineer raw).map FeatRow.idx = List.range' 4 (raw.length - 4) := by
  have key : engineer raw = (List.range' 4 (raw.length - 4)).map (featRowAt raw) := by
    unfold engineer
    rw [List.filter_map]
    have hcong : ∀ x ∈ List.range raw.length,
        (dropnaKeep ∘ featRowAt raw) x = (fun i => decide (4 ≤ i)) x := by
      intro x hx
      have hxlt := List.mem_range.mp hx
      simpa using dropnaKeep_featRowAt raw x hxlt
    rw [List.filter_congr hcong, range_filter_ge raw.length (by omega)]
  refine ⟨?_, ?_⟩
  · rw [key, List.length_map, List.length_range']
  · rw [key, List.map_map]
    have hid : (FeatRow.idx ∘ featRowAt raw) = fun i => i := rfl
    rw [hid]
    exact List.map_id' _

/-- C7 witness: a concrete 5-row series keeps exactly 1 row, the one with
original index 4. -/
theorem engineer_drops_first_four_witness :
    5 ≤ ([1, 2, 3, 4, 5] : List ℚ).length ∧
    (engineer [1, 2, 3, 4, 5]).length = 1 ∧
    (engineer [1, 2, 3, 4, 5]).map FeatRow.idx = [4] := by
  have h := engineer_drops_first_four [1, 2, 3, 4, 5] (by decide)
  refine ⟨by decide, ?_, ?_⟩
  · simpa using h.1
  · have h2 := h.2
    simpa [List.range'] using h2

/-- C5: the next-day profile selects the cached records whose `dayofweek`
equals tomorrow's; when none match it falls back to the entire cached table;
per hour it reports the (4-decimal-rounded) median — not the mean — of the
predicted values of the selected records, and an hour with no selected
record reports 0 (a number, not null).  The last conjuncts separate median
from mean on a concrete series. -/
theorem forecastTomorrow_spec :
    (∀ (rs : List SRow) (tdow h : ℕ), h < 24 → (dowRows rs tdow).isEmpty = false →
      ((forecastTomorrow rs tdow).getD h ⟨0, 0, 0⟩).predicted =
        (if (((dowRows rs tdow).filter (fun r => r.hour == h)).map SRow.predicted).isEmpty
         then 0
         else round4 (medianQ (((dowRows rs tdow).filter (fun r => r.hour == h)).map SRow.predicted)))) ∧
    (∀ (rs : List SRow) (tdow h : ℕ), h < 24 → (dowRows rs tdow).isEmpty = true →
      ((forecastTomorrow rs tdow).getD h ⟨0, 0, 0⟩).predicted =
        (if ((rs.filter (fun r => r.hour == h)).map SRow.predicted).isEmpty
         then 0
         else round4 (medianQ ((rs.filter (fun r => r.hour == h)).map SRow.predicted)))) ∧
    medianQ [1, 2, 100] = 2 ∧
    meanQ [1, 2, 100] ≠ 2 ∧
    medianQ [1, 2, 3, 100] = 5/2 := by
  refine ⟨?_, ?_, ?_, ?_, ?_⟩
  · intro rs tdow h hh hne
    rw [forecastTomorrow_getD rs tdow h hh]
    have hsel : selRows rs tdow = dowRows rs tdow := by
      unfold selRows
      rw [hne]
      rfl
    simp only [hsel, hourMedian]
    by_cases hv : (((dowRows rs tdow).filter (fun r => r.hour == h)).map SRow.predicted).isEmpty
    · simp [hv]
    · simp [hv]
  · intro rs tdow h hh he
    rw [forecastTomorrow_getD rs tdow h hh]
    have hsel : selRows rs tdow = rs := by
      unfold selRows
      rw [he]
      rfl
    simp only [hsel, hourMedian]
    by_cases hv : ((rs.filter (fun r => r.hour == h)).map SRow.predicted).isEmpty
    · simp [hv]
    · simp [hv]
  · decide
  · norm_num [meanQ]
  · norm_num [medianQ, List.insertionSort, List.orderedInsert]

/-- C5 witness: with a single cached record on day-of-week 2 at hour 0,
tomorrow's profile for hour 1 (no selected record at that hour) is 0. -/
theorem forecastTomorrow_spec_witness :
    (dowRows [⟨0, 2, 5⟩] 2).isEmpty = false ∧
    ((forecastTomorrow [⟨0, 2, 5⟩] 2).getD 1 ⟨0, 0, 0⟩).predicted = 0 := by
  have hc := forecastTomorrow_spec.1 [⟨0, 2, 5⟩] 2 1 (by decide) (by decide)
  exact ⟨by decide, by simpa [dowRows] using hc⟩

theorem bucketOf_eq_none (v : ℚ) (h : ¬ 0 < v) : bucketOf v = none := by
  unfold bucketOf
  have n1 : ¬(0 < v ∧ v ≤ 2) := fun hh => h hh.1
  have n2 : ¬(2 < v ∧ v ≤ 4) := fun hh => h (by linarith [hh.1])
  have n3 : ¬(4 < v ∧ v ≤ 6) := fun hh => h (by linarith [hh.1])
  have n4 : ¬(6 < v ∧ v ≤ 8) := fun hh => h (by linarith [hh.1])
  have n5 : ¬(8 < v ∧ v ≤ 10) := fun hh => h (by linarith [hh.1])
  have n6 : ¬(10 < v ∧ v ≤ 12) := fun hh => h (by linarith [hh.1])
  have n7 : ¬(12 < v) := fun hh => h (by linarith)
  rw [if_neg n1, if_neg n2, if_neg n3, if_neg n4, if_neg n5, if_neg n6, if_neg n7]

theorem bucketOf_lt_seven (v : ℚ) (h : 0 < v) : ∃ k, k < 7 ∧ bucketOf v = some k := by
  unfold bucketOf
  split_ifs with h1 h2 h3 h4 h5 h6 h7
  · exact ⟨0, by omega, rfl⟩
  · exact ⟨1, by omega, rfl⟩
  · exact ⟨2, by omega, rfl⟩
  · exact ⟨3, by omega, rfl⟩
  · exact ⟨4, by omega, rfl⟩
  · exact ⟨5, by omega, rfl⟩
  · exact ⟨6, by omega, rfl⟩
  · exfalso
    have a1 : ¬ v ≤ 2 := fun hle => h1 ⟨h, hle⟩
    have a2 : ¬ v ≤ 4 := fun hle => h2 ⟨by linarith, hle⟩
    have a3 : ¬ v ≤ 6 := fun hle => h3 ⟨by linarith, hle⟩
    have a4 : ¬ v ≤ 8 := fun hle => h4 ⟨by linarith, hle⟩
    have a5 : ¬ v ≤ 10 := fun hle => h5 ⟨by linarith, hle⟩
    have a6 : ¬ v ≤ 12 := fun hle => h6 ⟨by linarith, hle⟩
    exact h7 (by linarith)

theorem indicator_sum_of_lt (k : ℕ) (hk : k < 7) :
    ((List.range 7).map (fun j => if (some k : Option ℕ) == some j then (1 : ℕ) else 0)).sum = 1 := by
  interval_cases k <;> decide

theorem sum_map_addN (l : List ℕ) (f g : ℕ → ℕ) :
    (l.map (fun k => f k + g k)).sum = (l.map f).sum + (l.map g).sum := by
  induction l with
  | nil => rfl
  | cons x t ih =>
    simp [ih]
    omega

theorem hist_sum (rs : List SRow) :
    ((List.range 7).map (fun k => histCount rs k)).sum
      = (rs.filter (fun r => decide (0 < r.predicted))).length := by
  induction rs with
  | nil => simp [histCount]
  | cons r t ih =>
    have hsplit : ∀ k, histCount (r :: t) k
        = (if bucketOf r.predicted == some k then 1 else 0) + histCount t k := by
      intro k
      unfold histCount
      rw [List.filter_cons]
      by_cases hb : (bucketOf r.predicted == some k) = true
      · simp [hb]
        omega
      · simp [hb]
    have hmap : (List.range 7).map (fun k => histCount (r :: t) k)
        = (List.range 7).map
            (fun k => (if bucketOf r.predicted == some k then 1 else 0) + histCount t k) :=
      List.map_congr_left (fun k _ => hsplit k)
    rw [hmap, sum_map_addN, ih, List.filter_cons]
    by_cases hp : 0 < r.predicted
    · obtain ⟨k, hk, hbk⟩ := bucketOf_lt_seven r.predicted hp
      simp only [hbk]
      rw [indicator_sum_of_lt k hk]
      simp [hp]
      omega
    · have hbn := bucketOf_eq_none r.predicted hp
      simp only [hbn]
      simp [hp]

/-- C1 counterexample: the histogram buckets are NOT closed-open.  A cached
table whose single record has predicted value exactly 2.0 is counted in
bucket "0-2 kW" (count 1) and not in "2-4 kW" (count 0); and a table whose
single record has predicted value 0 is counted in no bucket at all, so the
bucket counts sum to 0, not to the number of records. -/
theorem histogram_cex :
    histCount [⟨0, 0, 2⟩] 0 = 1 ∧
    histCount [⟨0, 0, 2⟩] 1 = 0 ∧
    ((histogram [⟨0, 0, (0 : ℚ)⟩]).map Prod.snd).sum = 0 := by
  refine ⟨by decide, by decide, by decide⟩

/-- C1 amended: `pd.cut` with the default `right=True` makes the buckets the
right-closed intervals `(0,2], (2,4], ..., (12,inf)`: a predicted value of
exactly 2.0 falls in "0-2 kW"; all seven buckets are reported in fixed order
(including zero-count ones); and the bucket counts sum to the number of
cached records whose predicted value is strictly positive (values `≤ 0`
fall in no bucket). -/
theorem histogram_spec :
    ∀ rs : List SRow,
      (histogram rs).length = 7 ∧
      (histogram rs).map Prod.fst = LABELS ∧
      ((histogram rs).map Prod.snd).sum
        = (rs.filter (fun r => decide (0 < r.predicted))).length ∧
      bucketOf 2 = some 0 ∧
      bucketOf 0 = none ∧
      (∀ v : ℚ, bucketOf v = some 1 ↔ 2 < v ∧ v ≤ 4) := by
  intro rs
  refine ⟨by simp [histogram], ?_, ?_, by decide, by decide, ?_⟩
  · simp only [histogram, List.map_map]
    rfl
  · simp only [histogram, List.map_map]
    have hc : (Prod.snd ∘ fun k => (LABELS.getD k "", histCount rs k))
        = fun k => histCount rs k := rfl
    rw [hc]
    exact hist_sum rs
  · intro v
    constructor
    · intro hv
      unfold bucketOf at hv
      split_ifs at hv with h1 h2 h3 h4 h5 h6 h7 <;> simp_all
    · intro hv
      unfold bucketOf
      have n1 : ¬(0 < v ∧ v ≤ 2) := fun hh => absurd hh.2 (not_le.mpr hv.1)
      rw [if_neg n1, if_pos hv]

theorem nlargestLE_trans (a b c : ℕ × SRow) :
    nlargestLE a b = true → nlargestLE b c = true → nlargestLE a c = true := by
  unfold nlargestLE
  simp only [decide_eq_true_eq]
  rintro (h1 | ⟨he1, hi1⟩) (h2 | ⟨he2, hi2⟩)
  · left; linarith
  · left; rw [← he2]; exact h1
  · left; rw [he1]; exact h2
  · right; exact ⟨he1.trans he2, le_trans hi1 hi2⟩

theorem nlargestLE_total (a b : ℕ × SRow) : (nlargestLE a b || nlargestLE b a) = true := by
  unfold nlargestLE
  simp only [Bool.or_eq_true, decide_eq_true_eq]
  rcases lt_trichotomy a.2.predicted b.2.predicted with h | h | h
  · right; left; exact h
  · rcases le_total a.1 b.1 with hi | hi
    · left; right; exact ⟨h, hi⟩
    · right; right; exact ⟨h.symm, hi⟩
  · left; left; exact h

theorem sortedEnum_pairwise (rs : List SRow) :
    (sortedEnum rs).Pairwise (fun a b => nlargestLE a b = true) :=
  List.sorted_mergeSort (fun a b c => nlargestLE_trans a b c)
    (fun a b => nlargestLE_total a b) rs.enum

theorem sortedEnum_perm (rs : List SRow) : (sortedEnum rs).Perm rs.enum :=
  List.mergeSort_perm rs.enum nlargestLE

theorem sortedEnum_fst_nodup (rs : List SRow) :
    (sortedEnum rs).Pairwise (fun a b => a.1 ≠ b.1) := by
  have h1 : ((sortedEnum rs).map Prod.fst).Nodup := by
    have hperm : ((sortedEnum rs).map Prod.fst).Perm ((rs.enum).map Prod.fst) :=
      (sortedEnum_perm rs).map Prod.fst
    rw [List.enum_map_fst] at hperm
    exact (List.Perm.nodup_iff hperm).mpr (List.nodup_range rs.length)
  exact List.pairwise_map.mp h1

theorem nlargestLE_pred_le (a b : ℕ × SRow) (h : nlargestLE a b = true) :
    b.2.predicted ≤ a.2.predicted := by
  unfold nlargestLE at h
  simp only [decide_eq_true_eq] at h
  rcases h with h | ⟨he, _⟩
  · exact le_of_lt h
  · exact le_of_eq he.symm

/-- C9: the `/peak` top-10 list consists of the 10 records with the largest
predicted values (every unselected record's prediction is ≤ every selected
one's), sorted by predicted value descending, with ties between equal
predicted values broken by original row order (pandas' stable
mergesort-argsort). -/
theorem top10_spec :
    ∀ rs : List SRow,
      (top10 rs).length = min 10 rs.length ∧
      (top10 rs).Pairwise (fun a b => b.2.predicted ≤ a.2.predicted) ∧
      (top10 rs).Pairwise (fun a b => a.2.predicted = b.2.predicted → a.1 < b.1) ∧
      ∃ rest : List (ℕ × SRow),
        (top10 rs ++ rest).Perm rs.enum ∧
        ∀ b ∈ rest, ∀ a ∈ top10 rs, b.2.predicted ≤ a.2.predicted := by
  intro rs
  have hsorted := sortedEnum_pairwise rs
  have hperm := sortedEnum_perm rs
  have hsub : (top10 rs).Sublist (sortedEnum rs) := List.take_sublist 10 _
  refine ⟨?_, ?_, ?_, ?_⟩
  · unfold top10
    rw [List.length_take, hperm.length_eq, List.enum_length]
  · exact (List.Pairwise.sublist hsub hsorted).imp
      (fun hab => nlargestLE_pred_le _ _ hab)
  · have hne := sortedEnum_fst_nodup rs
    have hand := hsorted.and hne
    refine (List.Pairwise.sublist hsub hand).imp ?_
    intro a b hab hpred
    obtain ⟨hle, hne'⟩ := hab
    unfold nlargestLE at hle
    simp only [decide_eq_true_eq] at hle
    rcases hle with h | ⟨_, hi⟩
    · exact absurd hpred.symm (ne_of_lt h)
    · exact lt_of_le_of_ne hi hne'
  · refine ⟨(sortedEnum rs).drop 10, ?_, ?_⟩
    · unfold top10
      rw [List.take_append_drop]
      exact hperm
    · intro b hb a ha
      have hs2 : ((sortedEnum rs).take 10 ++ (sortedEnum rs).drop 10).Pairwise
          (fun a b => nlargestLE a b = true) := by
        rw [List.take_append_drop]
        exact hsorted
      have h3 := (List.pairwise_append.mp hs2).2.2 a ha b hb
      exact nlargestLE_pred_le _ _ h3
